import Mathlib

/-!
Verification of the data-alignment and normalization pipeline of the
finance_alert_telegram dashboard.

The pipeline under verification (from `src/app.py`, with variants in
`src/app_v2.py` and `src/app_v9.py`):

* `load_data` — fetches several time series, outer-joins them on their date
  index, sorts the index, forward-fills (`df.sort_index().ffill()`), and
  windows to the trailing retention period
  (`df[df.index >= df.index.max() - DateOffset(years=2)]`).
* `make_chart` — restricts to three columns, drops rows containing any
  missing value (`df[[c1, c2, c3]].dropna()`), normalizes each column to
  z-scores (`(df - df.mean()) / df.std()`, sample standard deviation), and
  projects each configured raw threshold into z-space with
  `(threshold - df[c].mean()) / df[c].std()` over the same frame.
* `send_summary` — reloads the data; on an empty table returns a warning
  status without notifying; otherwise formats the last row (`df.iloc[-1]`)
  and sends it.

Timestamps are embedded as `Int` (a date index), values as `ℚ`.  The input
series carry no absent values because every fetcher calls `.dropna()` on
the raw FRED frame; absence arises only from the outer join.  Pandas'
`.std()` is the square root of the sample variance computed by a numeric
routine; the embedding is parametric in that square-root routine
(`sqrtFn`), keeping every definition executable.  Division by zero (which
in pandas floating point yields NaN or infinity) is the rational
convention `q / 0 = 0`.
-/

namespace CreditDash

/-- Dates of the FRED series, embedded as integers. -/
abbrev Timestamp := Int

/-- Observed values, embedded as rationals. -/
abbrev Value := ℚ

/-- One fetched time series: (timestamp, value) pairs.  The fetchers
(`FredFetcher.fetch`) call `.dropna()`, so every carried value is present;
the `TimeSeries` invariant (ascending, unique timestamps) is a hypothesis
where needed. -/
abbrev Series := List (Timestamp × Value)

/-- The timestamps (the date index) of a series. -/
def seriesTimes (s : Series) : List Timestamp :=
  s.map Prod.fst

/-- Direct observation of a series at a timestamp, if any.  This is the
value placement performed by the outer join: a cell is filled exactly when
the series' own index contains the timestamp. -/
def lookupObs (s : Series) (t : Timestamp) : Option Value :=
  (s.find? (fun p => decide (p.1 = t))).map Prod.snd

/-- The unified date axis built by the chain of `join(..., how="outer")`
followed by `sort_index()`: the sorted union (without duplicates) of all
input indexes. -/
def mergeAxis (cols : List Series) : List Timestamp :=
  List.insertionSort (· ≤ ·) ((cols.map seriesTimes).flatten.dedup)

/-- One step of pandas `ffill` along a column: `acc` is the last value
observed so far; a present cell passes through and becomes the new `acc`,
an absent cell is replaced by `acc`. -/
def ffillGo (acc : Option Value) : List (Option Value) → List (Option Value)
  | [] => []
  | some v :: xs => some v :: ffillGo (some v) xs
  | none :: xs => acc :: ffillGo acc xs

/-- Pandas `ffill` on one column: propagate the last present value
forward; cells before the first observation stay absent. -/
def ffillList (l : List (Option Value)) : List (Option Value) :=
  ffillGo none l

/-- The merged frame: the unified sorted date axis plus, per indicator,
one column of optional values aligned with the axis. -/
structure MergedTable where
  axis : List Timestamp
  cols : List (String × List (Option Value))
deriving DecidableEq

/-- The merge stage of `load_data`: outer-join all series onto the unified
sorted axis (`join(..., how="outer")` then `sort_index()`), then
forward-fill every column independently (`.ffill()`). -/
def mergeTables (inputs : List (String × Series)) : MergedTable :=
  ⟨mergeAxis (inputs.map Prod.snd),
   inputs.map (fun ns =>
     (ns.1, ffillList ((mergeAxis (inputs.map Prod.snd)).map (fun u => lookupObs ns.2 u))))⟩

/-- `df.index.max()`: greatest timestamp of the axis, `none` on an empty
index (pandas returns `NaT`). -/
def maxTimestamp : List Timestamp → Option Timestamp
  | [] => none
  | t :: ts => some (match maxTimestamp ts with
      | none => t
      | some m => max t m)

/-- The row mask of `df[df.index >= df.index.max() - retention]`: when the
index maximum is `NaT` (empty table) every comparison is false, otherwise
keep timestamps at or after the cutoff. -/
def keepRow (m : Option Timestamp) (r : Int) (t : Timestamp) : Bool :=
  match m with
  | none => false
  | some mx => decide (mx - r ≤ t)

/-- The windowing step of `load_data`:
`df[df.index >= df.index.max() - DateOffset(years=2)]` with the retention
period generalized to an integer `r`.  Rows are filtered; every column is
filtered in lockstep with the axis. -/
def windowTable (tbl : MergedTable) (r : Int) : MergedTable :=
  ⟨tbl.axis.filter (fun t => keepRow (maxTimestamp tbl.axis) r t),
   tbl.cols.map (fun nc =>
     (nc.1, (tbl.axis.zip nc.2).filterMap
        (fun tv => if keepRow (maxTimestamp tbl.axis) r tv.1 then some tv.2 else none)))⟩

/-- The most recent observation of a series at or before `t` — the value
the spec says forward-fill must reproduce.  For a series sorted ascending
by timestamp, the last element of the filtered list is the observation
with the greatest timestamp `≤ t`. -/
def mostRecentAtOrBefore (s : Series) (t : Timestamp) : Option Value :=
  ((s.filter (fun p => decide (p.1 ≤ t))).getLast?).map Prod.snd

/-! ### Helper lemmas on lists and lookups -/

/-- An indexed element of a list is a member. -/
lemma mem_of_getElemOpt {α : Type} {l : List α} {i : Nat} {a : α}
    (h : l[i]? = some a) : a ∈ l := by
  rw [List.getElem?_eq_some] at h
  obtain ⟨hi, rfl⟩ := h
  exact List.getElem_mem hi

/-- The outer join leaves a cell absent iff the series' index misses the
timestamp. -/
lemma lookupObs_eq_none_iff (s : Series) (t : Timestamp) :
    lookupObs s t = none ↔ ∀ p ∈ s, p.1 ≠ t := by
  simp [lookupObs, List.find?_eq_none]

/-- A filled cell comes from an actual observation of the series. -/
lemma lookupObs_eq_some_mem {s : Series} {t : Timestamp} {v : Value}
    (h : lookupObs s t = some v) : (t, v) ∈ s := by
  unfold lookupObs at h
  rcases hf : s.find? (fun p => decide (p.1 = t)) with _ | p
  · rw [hf] at h; simp at h
  · rw [hf] at h
    have hp := List.find?_some hf
    have hmem := List.mem_of_find?_eq_some hf
    simp at h hp
    rw [← h, ← hp]
    exact hmem

/-- In a series sorted strictly ascending by timestamp, the last element
surviving the filter `timestamp ≤ a` is the observation at `a` itself,
whenever one exists. -/
lemma getLast?_filter_sorted :
    ∀ (s : Series) (a : Timestamp) (v : Value),
      s.Pairwise (fun p q => p.1 < q.1) → (a, v) ∈ s →
      (s.filter (fun p => decide (p.1 ≤ a))).getLast? = some (a, v) := by
  intro s
  induction s with
  | nil => intro a v _ hmem; simp at hmem
  | cons p ps ih =>
    intro a v hs hmem
    rw [List.pairwise_cons] at hs
    obtain ⟨hp, hps⟩ := hs
    rcases List.mem_cons.mp hmem with heq | hmem'
    · have hpa : p = (a, v) := heq.symm
      subst hpa
      have hfps : ps.filter (fun q => decide (q.1 ≤ a)) = [] := by
        rw [List.filter_eq_nil_iff]
        intro q hq
        simp only [decide_eq_true_eq]
        exact not_le.mpr (hp q hq)
      rw [List.filter_cons_of_pos (by simp), hfps]
      rfl
    · have hlt : p.1 < a := hp (a, v) hmem'
      have hrec := ih a v hps hmem'
      rcases hfp : ps.filter (fun q => decide (q.1 ≤ a)) with _ | ⟨q, qs⟩
      · rw [hfp] at hrec; simp at hrec
      · rw [List.filter_cons_of_pos (by simp [le_of_lt hlt]), hfp,
          List.getLast?_cons_cons, ← hfp]
        exact hrec

/-! ### Properties of the merged axis -/

/-- Membership in the unified axis: exactly the timestamps occurring in
some input series (the outer-join union). -/
lemma mem_mergeAxis {cols : List Series} {t : Timestamp} :
    t ∈ mergeAxis cols ↔ ∃ s, s ∈ cols ∧ t ∈ seriesTimes s := by
  unfold mergeAxis
  rw [(List.perm_insertionSort _ _).mem_iff]
  simp [List.mem_flatten]

/-- The unified axis is strictly increasing: sorted, no duplicate dates. -/
lemma mergeAxis_sorted (cols : List Series) :
    (mergeAxis cols).Pairwise (fun a c => a < c) := by
  have hsort : (mergeAxis cols).Sorted (· ≤ ·) :=
    List.sorted_insertionSort _ _
  have hnd : (mergeAxis cols).Nodup :=
    ((List.perm_insertionSort _ _).nodup_iff).mpr (List.nodup_dedup _)
  exact hsort.lt_of_le hnd

/-! ### Correctness of forward-fill along the sorted axis -/

/-- Invariant-carrying form of forward-fill correctness.  `b` is the
timestamp processed last (`none` before the first axis entry), `acc` the
value `ffill` carries: the most recent observation at or before `b`.
Provided every remaining observation of the series lies on the remaining
axis, each produced cell equals the most recent observation at or before
its own timestamp. -/
lemma ffill_key (s : Series) (hs : s.Pairwise (fun p q => p.1 < q.1)) :
    ∀ (axis : List Timestamp) (acc : Option Value) (b : Option Timestamp),
      axis.Pairwise (fun a c => a < c) →
      (∀ t ∈ axis, ∀ x, b = some x → x < t) →
      (∀ x, b = some x → acc = mostRecentAtOrBefore s x) →
      (b = none → acc = none) →
      (∀ p ∈ s, (∀ x, b = some x → x < p.1) → p.1 ∈ axis) →
      ∀ (i : Nat) (t : Timestamp), axis[i]? = some t →
        (ffillGo acc (axis.map (fun u => lookupObs s u)))[i]? =
          some (mostRecentAtOrBefore s t) := by
  intro axis
  induction axis with
  | nil =>
    intro acc b _ _ _ _ _ i t hit
    simp at hit
  | cons a rest ih =>
    intro acc b hsort hbelow hacc haccn hcover i t hit
    rw [List.pairwise_cons] at hsort
    obtain ⟨harest, hrest⟩ := hsort
    have hb_lt_a : ∀ x, b = some x → x < a :=
      fun x hx => hbelow a (List.mem_cons_self a rest) x hx
    cases hl : lookupObs s a with
    | none =>
      have hne : ∀ p ∈ s, p.1 ≠ a := (lookupObs_eq_none_iff s a).mp hl
      have hmra : mostRecentAtOrBefore s a = acc := by
        cases hb : b with
        | none =>
          have hacc0 : acc = none := haccn hb
          have hfil : s.filter (fun p => decide (p.1 ≤ a)) = [] := by
            rw [List.filter_eq_nil_iff]
            intro p hp hdec
            simp only [decide_eq_true_eq] at hdec
            have hmem := hcover p hp (fun x hx => by rw [hb] at hx; exact absurd hx (by simp))
            rcases List.mem_cons.mp hmem with h1 | h2
            · exact hne p hp h1
            · exact absurd hdec (not_le.mpr (harest p.1 h2))
          simp [mostRecentAtOrBefore, hfil, hacc0]
        | some x =>
          have hax : x < a := hb_lt_a x hb
          have haccx : acc = mostRecentAtOrBefore s x := hacc x hb
          have hfil : s.filter (fun p => decide (p.1 ≤ a)) =
              s.filter (fun p => decide (p.1 ≤ x)) := by
            apply List.filter_congr
            intro p hp
            rcases le_or_lt p.1 x with hle | hgt
            · simp [hle, le_trans hle (le_of_lt hax)]
            · have hmem := hcover p hp (fun y hy => by
                rw [hb] at hy
                injection hy with hy
                rw [← hy]
                exact hgt)
              rcases List.mem_cons.mp hmem with h1 | h2
              · exact absurd h1 (hne p hp)
              · simp [not_le.mpr (harest p.1 h2), not_le.mpr hgt]
          simp only [mostRecentAtOrBefore] at haccx ⊢
          rw [hfil]
          exact haccx.symm
      simp only [List.map_cons, hl]
      cases i with
      | zero =>
        have hta : a = t := by simpa using hit
        subst hta
        simp [ffillGo, hmra]
      | succ j =>
        have hit' : rest[j]? = some t := by simpa using hit
        have hres := ih acc (some a) hrest
          (fun t' ht' x hx => by injection hx with hx; rw [← hx]; exact harest t' ht')
          (fun x hx => by injection hx with hx; rw [← hx]; exact hmra.symm)
          (fun hx => by exact absurd hx (by simp))
          (fun p hp hgt => by
            have hga : a < p.1 := hgt a rfl
            have hmem := hcover p hp (fun y hy => lt_trans (hb_lt_a y hy) hga)
            rcases List.mem_cons.mp hmem with h1 | h2
            · rw [h1] at hga; exact absurd hga (lt_irrefl a)
            · exact h2)
          j t hit'
        simpa [ffillGo] using hres
    | some v =>
      have hmem : (a, v) ∈ s := lookupObs_eq_some_mem hl
      have hmra : mostRecentAtOrBefore s a = some v := by
        simp only [mostRecentAtOrBefore]
        rw [getLast?_filter_sorted s a v hs hmem]
        rfl
      simp only [List.map_cons, hl]
      cases i with
      | zero =>
        have hta : a = t := by simpa using hit
        subst hta
        simp [ffillGo, hmra]
      | succ j =>
        have hit' : rest[j]? = some t := by simpa using hit
        have hres := ih (some v) (some a) hrest
          (fun t' ht' x hx => by injection hx with hx; rw [← hx]; exact harest t' ht')
          (fun x hx => by injection hx with hx; rw [← hx]; exact hmra.symm)
          (fun hx => by exact absurd hx (by simp))
          (fun p hp hgt => by
            have hga : a < p.1 := hgt a rfl
            have hmem' := hcover p hp (fun y hy => lt_trans (hb_lt_a y hy) hga)
            rcases List.mem_cons.mp hmem' with h1 | h2
            · rw [h1] at hga; exact absurd hga (lt_irrefl a)
            · exact h2)
          j t hit'
        simpa [ffillGo] using hres

/-! ### Claims C1, C2, C8 — the merge stage -/

/-- C1.  Forward-fill correctness of the merge stage: for every input
column (sorted ascending with unique timestamps, the `TimeSeries`
invariant) and every position on the unified axis, the merged cell equals
the most recent observation of that column at or before the axis
timestamp, and is absent when no such observation exists
(`mostRecentAtOrBefore` is `none` there).  This covers in particular every
timestamp with no direct observation. -/
theorem claim_C1_forward_fill (inputs : List (String × Series)) (k i : Nat)
    (nm : String) (s : Series) (t : Timestamp)
    (hk : inputs[k]? = some (nm, s))
    (hs : s.Pairwise (fun p q => p.1 < q.1))
    (ht : (mergeTables inputs).axis[i]? = some t) :
    ∃ col, (mergeTables inputs).cols[k]? = some (nm, col) ∧
      col[i]? = some (mostRecentAtOrBefore s t) := by
  refine ⟨ffillList ((mergeAxis (inputs.map Prod.snd)).map (fun u => lookupObs s u)), ?_, ?_⟩
  · show (inputs.map _)[k]? = _
    rw [List.getElem?_map, hk]
    rfl
  · have hmem_s : s ∈ inputs.map Prod.snd :=
      List.mem_map_of_mem Prod.snd (mem_of_getElemOpt hk)
    exact ffill_key s hs (mergeAxis (inputs.map Prod.snd)) none none
      (mergeAxis_sorted _)
      (fun t' _ x hx => absurd hx (by simp))
      (fun x hx => absurd hx (by simp))
      (fun _ => rfl)
      (fun p hp _ => mem_mergeAxis.mpr ⟨s, hmem_s, List.mem_map_of_mem Prod.fst hp⟩)
      i t ht

/-- Witness for C1 on concrete data: two series, the merged value of
column `A` at the axis timestamp `2` (no direct observation) is the
observation forward-filled from timestamp `1`. -/
theorem claim_C1_forward_fill_witness :
    ∃ col, (mergeTables [("A", [((1 : Int), (1 : ℚ)), (3, 2)]), ("B", [(2, 5)])]).cols[0]? =
        some ("A", col) ∧
      col[1]? = some (mostRecentAtOrBefore [((1 : Int), (1 : ℚ)), (3, 2)] 2) :=
  claim_C1_forward_fill [("A", [(1, 1), (3, 2)]), ("B", [(2, 5)])] 0 1 "A"
    [(1, 1), (3, 2)] 2 rfl (by decide) (by decide)

/-- C2.  Union property of the merge stage: the merged axis contains a
timestamp iff some input series observes it (outer-join semantics, no
timestamp dropped), and the rows are strictly ascending in timestamp. -/
theorem claim_C2_union_sorted (inputs : List (String × Series)) :
    (∀ t : Timestamp, t ∈ (mergeTables inputs).axis ↔
      ∃ p, p ∈ inputs ∧ ∃ q, q ∈ p.2 ∧ q.1 = t)
    ∧ (mergeTables inputs).axis.Pairwise (fun a c => a < c) := by
  constructor
  · intro t
    show t ∈ mergeAxis _ ↔ _
    rw [mem_mergeAxis]
    constructor
    · rintro ⟨s, hs, hts⟩
      rcases List.mem_map.mp hs with ⟨p, hp, rfl⟩
      rcases List.mem_map.mp hts with ⟨q, hq, rfl⟩
      exact ⟨p, hp, q, hq, rfl⟩
    · rintro ⟨p, hp, q, hq, rfl⟩
      exact ⟨p.2, List.mem_map_of_mem Prod.snd hp, List.mem_map_of_mem Prod.fst hq⟩
  · exact mergeAxis_sorted _

/-- The unified axis only depends on the multiset of input series: any
permutation of the inputs produces the same sorted deduplicated union. -/
lemma mergeAxis_perm_eq {c1 c2 : List Series} (h : c1.Perm c2) :
    mergeAxis c1 = mergeAxis c2 := by
  refine List.eq_of_perm_of_sorted ?_ (List.sorted_insertionSort _ _)
    (List.sorted_insertionSort _ _)
  exact ((List.perm_insertionSort _ _).trans
    (((h.map seriesTimes).flatten).dedup)).trans
    (List.perm_insertionSort _ _).symm

/-- Two fixed input lists differing only in order. -/
def exPermA : List (String × Series) := [("A", [((0 : Int), (1 : ℚ))]), ("B", [(0, 2)])]

/-- The same inputs as `exPermA`, supplied in the opposite order. -/
def exPermB : List (String × Series) := [("B", [((0 : Int), (2 : ℚ))]), ("A", [(0, 1)])]

/-- C8, counterexample.  Merging a permutation of the same columns does
not yield an identical `MergedTable`: the column order of the merged
table follows input order, so the two tables are not bit-for-bit equal. -/
theorem claim_C8_counterexample :
    exPermA.Perm exPermB ∧ mergeTables exPermA ≠ mergeTables exPermB := by
  constructor
  · exact List.Perm.swap _ _ _
  · decide

/-- C8, amended.  Order independence up to column order: for any
permutation of the inputs, the merged axis is identical and the same
(name, column-values) pairs are present — every (timestamp, column) pair
carries the same value or absence — but the table itself lists the
columns in input order. -/
theorem claim_C8_perm_invariant (i1 i2 : List (String × Series))
    (h : i1.Perm i2) :
    (mergeTables i1).axis = (mergeTables i2).axis
    ∧ ∀ (nm : String) (col : List (Option Value)),
        (nm, col) ∈ (mergeTables i1).cols ↔ (nm, col) ∈ (mergeTables i2).cols := by
  have haxis : mergeAxis (i1.map Prod.snd) = mergeAxis (i2.map Prod.snd) :=
    mergeAxis_perm_eq (h.map Prod.snd)
  constructor
  · exact haxis
  · intro nm col
    show (nm, col) ∈ i1.map _ ↔ (nm, col) ∈ i2.map _
    rw [haxis]
    exact (h.map _).mem_iff

/-- Witness for the amended C8 at the concrete permuted inputs. -/
theorem claim_C8_perm_invariant_witness :
    (mergeTables exPermA).axis = (mergeTables exPermB).axis
    ∧ ∀ (nm : String) (col : List (Option Value)),
        (nm, col) ∈ (mergeTables exPermA).cols ↔ (nm, col) ∈ (mergeTables exPermB).cols :=
  claim_C8_perm_invariant exPermA exPermB (List.Perm.swap _ _ _)

/-! ### Claims C6, C7 — the windowing step -/

/-- The index maximum is `none` exactly on an empty index. -/
lemma maxTimestamp_eq_none_iff (l : List Timestamp) :
    maxTimestamp l = none ↔ l = [] := by
  cases l with
  | nil => simp [maxTimestamp]
  | cons t ts => simp [maxTimestamp]

/-- Unfolding equation of `maxTimestamp` on a nonempty index. -/
lemma maxTimestamp_cons (t : Timestamp) (ts : List Timestamp) :
    maxTimestamp (t :: ts) = some (match maxTimestamp ts with
      | none => t
      | some m => max t m) := rfl

/-- The index maximum is attained by an element of the index. -/
lemma maxTimestamp_mem :
    ∀ {l : List Timestamp} {M : Timestamp}, maxTimestamp l = some M → M ∈ l := by
  intro l
  induction l with
  | nil => intro M h; simp [maxTimestamp] at h
  | cons t ts ih =>
    intro M h
    rw [maxTimestamp_cons] at h
    cases hts : maxTimestamp ts with
    | none =>
      rw [hts] at h
      simp at h
      simp [h]
    | some m =>
      rw [hts] at h
      simp at h
      rcases max_choice t m with hc | hc
      · rw [hc] at h
        rw [← h]
        exact List.mem_cons_self t ts
      · rw [hc] at h
        rw [← h]
        exact List.mem_cons_of_mem t (ih hts)

/-- Every index entry is at most the index maximum. -/
lemma le_maxTimestamp :
    ∀ {l : List Timestamp} {M t : Timestamp},
      maxTimestamp l = some M → t ∈ l → t ≤ M := by
  intro l
  induction l with
  | nil => intro M t _ ht; simp at ht
  | cons a ts ih =>
    intro M t h ht
    rw [maxTimestamp_cons] at h
    cases hts : maxTimestamp ts with
    | none =>
      rw [hts] at h
      simp at h
      have hts' : ts = [] := (maxTimestamp_eq_none_iff ts).mp hts
      subst hts'
      simp at ht
      simp [ht, h]
    | some m =>
      rw [hts] at h
      simp at h
      rcases List.mem_cons.mp ht with h1 | h2
      · rw [h1, ← h]; exact le_max_left a m
      · calc t ≤ m := ih hts h2
          _ ≤ max a m := le_max_right a m
          _ = M := h

/-- C6.  Windowing boundary: on a table with index maximum `M`, the
windowed axis contains exactly the timestamps of the table lying in the
closed interval `[M - r, M]`; in particular a row at exactly `M - r`
survives the filter. -/
theorem claim_C6_window_boundary (tbl : MergedTable) (r : Int) (M : Timestamp)
    (hM : maxTimestamp tbl.axis = some M) :
    ∀ t : Timestamp, t ∈ (windowTable tbl r).axis ↔
      (t ∈ tbl.axis ∧ M - r ≤ t ∧ t ≤ M) := by
  intro t
  show t ∈ tbl.axis.filter _ ↔ _
  rw [List.mem_filter]
  simp only [keepRow, hM, decide_eq_true_eq]
  constructor
  · rintro ⟨hmem, hle⟩
    exact ⟨hmem, hle, le_maxTimestamp hM hmem⟩
  · rintro ⟨hmem, hle, _⟩
    exact ⟨hmem, hle⟩

/-- Witness for C6: with axis `[0, 5, 10]` and retention `10`, the cutoff
is `0` and the row at exactly the cutoff is kept. -/
theorem claim_C6_window_boundary_witness :
    (0 : Int) ∈ (windowTable ⟨[0, 5, 10], [("A", [some 1, some 2, some 3])]⟩ 10).axis ↔
      ((0 : Int) ∈ ([0, 5, 10] : List Int) ∧ (10 : Int) - 10 ≤ 0 ∧ (0 : Int) ≤ 10) :=
  claim_C6_window_boundary ⟨[0, 5, 10], [("A", [some 1, some 2, some 3])]⟩ 10 10 rfl 0

/-- C7.  Empty-table windowing: applied to a table with no rows, the
windowing step returns a table with no rows (and the declared columns,
each with no data) instead of failing — in pandas the empty index maximum
is `NaT` (embedded as `none`) and every cutoff comparison is false. -/
theorem claim_C7_empty_window (cols : List (String × List (Option Value))) (r : Int) :
    windowTable ⟨[], cols⟩ r = ⟨[], cols.map (fun nc => (nc.1, []))⟩ := by
  simp [windowTable]

/-! ### Claim C10 — the send-summary operation -/

/-- Outcome stati of the send-summary callback: the data-unavailable
warning string, or the success string after a Telegram send. -/
inductive SummaryStatus
  | dataUnavailable
  | sentOk
deriving DecidableEq

/-- The `send_summary` callback of `app.py`: reload the data; on an empty
table return the warning without invoking the notifier; otherwise build
the message from the values of the last row (`df.iloc[-1]`) and send it.
The first component is the payload handed to the notifier (`none` when no
send happens); formatting and the wall-clock timestamp in the message are
ambient I/O and not modelled. -/
def send_summary (tbl : MergedTable) : Option (List (Option Value)) × SummaryStatus :=
  if tbl.axis.isEmpty then
    (none, SummaryStatus.dataUnavailable)
  else
    (some (tbl.cols.map (fun nc => nc.2.getD (tbl.axis.length - 1) none)),
     SummaryStatus.sentOk)

/-- On a strictly sorted index the index maximum is the last entry. -/
lemma maxTimestamp_sorted_getLast :
    ∀ {l : List Timestamp}, l.Pairwise (fun a c => a < c) →
      maxTimestamp l = l.getLast? := by
  intro l
  induction l with
  | nil => intro _; rfl
  | cons a ts ih =>
    intro h
    rw [List.pairwise_cons] at h
    obtain ⟨ha, hts⟩ := h
    cases ts with
    | nil => rfl
    | cons b ts' =>
      have hmax : maxTimestamp (b :: ts') = (b :: ts').getLast? := ih hts
      rcases hm : maxTimestamp (b :: ts') with _ | m
      · simp [maxTimestamp_eq_none_iff] at hm
      · have ham : a < m := ha m (maxTimestamp_mem hm)
        rw [maxTimestamp_cons, hm, List.getLast?_cons_cons, ← hmax, hm]
        simp [max_eq_right (le_of_lt ham)]

/-- C10.  Empty-table guard of `send_summary`: with zero rows nothing is
sent and the warning status is returned; with at least one row the
notifier payload is exactly the values of the last row, whose timestamp
is the index maximum on a sorted axis. -/
theorem claim_C10_send_summary (tbl : MergedTable) :
    (tbl.axis = [] → send_summary tbl = (none, SummaryStatus.dataUnavailable))
    ∧ (tbl.axis ≠ [] →
        send_summary tbl =
          (some (tbl.cols.map (fun nc => nc.2.getD (tbl.axis.length - 1) none)),
           SummaryStatus.sentOk))
    ∧ (tbl.axis.Pairwise (fun a c => a < c) →
        maxTimestamp tbl.axis = tbl.axis[tbl.axis.length - 1]?) := by
  refine ⟨?_, ?_, ?_⟩
  · intro h
    simp [send_summary, h]
  · intro h
    simp [send_summary, h]
  · intro h
    rw [maxTimestamp_sorted_getLast h, List.getLast?_eq_getElem?]

/-- Witness for C10 on a concrete two-row table: the payload is the last
row and its timestamp is the maximum. -/
theorem claim_C10_send_summary_witness :
    send_summary ⟨[1, 2], [("A", [some 1, some 2])]⟩ =
      (some [(some 2 : Option Value)], SummaryStatus.sentOk)
    ∧ maxTimestamp ([1, 2] : List Int) = (([1, 2] : List Int))[(2 : Nat) - 1]? := by
  constructor
  · exact (claim_C10_send_summary ⟨[1, 2], [("A", [some 1, some 2])]⟩).2.1 (by decide)
  · exact (claim_C10_send_summary ⟨[1, 2], [("A", [some 1, some 2])]⟩).2.2 (by decide)

/-! ### The normalization stage of `make_chart` (app.py lines 82-92) -/

/-- Column selection `df[nm]`: the stored column of the table.  A name
not present in the frame reads as an entirely absent column. -/
def colValues (tbl : MergedTable) (nm : String) : List (Option Value) :=
  match tbl.cols.find? (fun nc => decide (nc.1 = nm)) with
  | some nc => nc.2
  | none => List.replicate tbl.axis.length none

/-- The `i`-th row of the column subset `df[names]`. -/
def rowAt (tbl : MergedTable) (names : List String) (i : Nat) : List (Option Value) :=
  names.map (fun nm => (colValues tbl nm).getD i none)

/-- The column subset `df[names]` as a list of rows, one per axis entry. -/
def subTableRows (tbl : MergedTable) (names : List String) :
    List (Timestamp × List (Option Value)) :=
  (List.range tbl.axis.length).filterMap
    (fun i => (tbl.axis[i]?).map (fun t => (t, rowAt tbl names i)))

/-- A row survives `dropna()` iff every cell is present; this extracts
the plain values in that case. -/
def allSome : List (Option Value) → Option (List Value)
  | [] => some []
  | none :: _ => none
  | some v :: rest => (allSome rest).map (fun vs => v :: vs)

/-- `df[names].dropna()`: keep exactly the rows in which every requested
column is present, as rows of plain values. -/
def droppedTable (tbl : MergedTable) (names : List String) :
    List (Timestamp × List Value) :=
  (subTableRows tbl names).filterMap
    (fun r => (allSome r.2).map (fun vs => (r.1, vs)))

/-- Sum of a list of values. -/
def listSum (l : List Value) : Value :=
  l.foldl (fun a x => a + x) 0

/-- Pandas column mean `df[c].mean()` over the values of a list. -/
def listMean (l : List Value) : Value :=
  listSum l / (l.length : Value)

/-- Pandas sample variance (`ddof = 1`), the square of `df[c].std()`:
sum of squared deviations over `n - 1`.  For `n ≤ 1`, where pandas yields
NaN, the rational division convention yields `0`. -/
def sampleVar (l : List Value) : Value :=
  listSum (l.map (fun v => (v - listMean l) * (v - listMean l)))
    / ((l.length : Value) - 1)

/-- The values of column `j` in a dropped (all-present) row list. -/
def colVals (rows : List (Timestamp × List Value)) (j : Nat) : List Value :=
  rows.map (fun r => r.2.getD j 0)

/-- `df[c].mean()` of column `j` of the dropped frame. -/
def colMean (rows : List (Timestamp × List Value)) (j : Nat) : Value :=
  listMean (colVals rows j)

/-- `df[c].std()` of column `j` of the dropped frame: the numeric square
root (`sqrtFn`) of the sample variance. -/
def colStd (sqrtFn : Value → Value) (rows : List (Timestamp × List Value))
    (j : Nat) : Value :=
  sqrtFn (sampleVar (colVals rows j))

/-- The z-score normalization `(df - df.mean()) / df.std()`: every cell
of column `j` is replaced by `(v - mean_j) / std_j`, with both statistics
taken over column `j` of the same (dropped) frame. -/
def normTable (sqrtFn : Value → Value) (rows : List (Timestamp × List Value))
    (ncols : Nat) : List (Timestamp × List Value) :=
  rows.map (fun r =>
    (r.1, (List.range ncols).map (fun j =>
      (r.2.getD j 0 - colMean rows j) / colStd sqrtFn rows j)))

/-- The threshold projection of `make_chart`:
`(threshold - df[c].mean()) / df[c].std()` computed over the same dropped
frame that is being normalized. -/
def threshZ (sqrtFn : Value → Value) (rows : List (Timestamp × List Value))
    (j : Nat) (t : Value) : Value :=
  (t - listMean (colVals rows j)) / sqrtFn (sampleVar (colVals rows j))

/-- The three columns `make_chart` keeps in `app.py`. -/
def selectedNames : List String :=
  ["HY Spread (bps)", "VIX Index", "Consumer Sentiment Index"]

/-- `df[[c1, c2, c3]].dropna()` of `make_chart` for the three selected
columns. -/
def make_chart_rows (tbl : MergedTable) : List (Timestamp × List Value) :=
  droppedTable tbl selectedNames

/-- The normalized frame `df_norm` of `make_chart`. -/
def make_chart_norm (sqrtFn : Value → Value) (tbl : MergedTable) :
    List (Timestamp × List Value) :=
  normTable sqrtFn (make_chart_rows tbl) selectedNames.length

/-- The threshold z-value of `make_chart` for column `j` and raw
threshold `t`. -/
def make_chart_thresh (sqrtFn : Value → Value) (tbl : MergedTable)
    (j : Nat) (t : Value) : Value :=
  threshZ sqrtFn (make_chart_rows tbl) j t

/-- The non-absent values of a column within a table — the population the
spec says the normalization statistics are computed over. -/
def presentValues (tbl : MergedTable) (nm : String) : List Value :=
  (colValues tbl nm).filterMap id

/-- A row passes `dropna()` with extracted values `vs` iff it consisted
exactly of those values, all present. -/
lemma allSome_eq_some_iff :
    ∀ (ovs : List (Option Value)) (vs : List Value),
      allSome ovs = some vs ↔ ovs = vs.map some := by
  intro ovs
  induction ovs with
  | nil =>
    intro vs
    cases vs <;> simp [allSome]
  | cons o rest ih =>
    intro vs
    cases o with
    | none => cases vs <;> simp [allSome]
    | some v =>
      cases vs with
      | nil => simp [allSome]
      | cons w ws =>
        constructor
        · intro h
          simp only [allSome] at h
          rcases hall : allSome rest with _ | vs'
          · rw [hall] at h; simp at h
          · rw [hall] at h
            simp only [Option.map_some', Option.some.injEq] at h
            have h1 : v = w := (List.cons.injEq v vs' w ws ▸ h).1
            have h2 : vs' = ws := (List.cons.injEq v vs' w ws ▸ h).2
            rw [List.map_cons, ← h1, ← h2, ← (ih vs').mp hall]
        · intro h
          rw [List.map_cons] at h
          rcases List.cons.injEq (some v) rest (some w) (ws.map some) ▸ h with ⟨h1, h2⟩
          simp only [allSome, (ih ws).mpr h2, Option.map_some']
          simp at h1
          rw [h1]

/-- Cell-level characterization of `normTable`: the `j`-th entry of the
`i`-th normalized row is the `i`-th source cell standardized with the
column statistics `colMean`/`colStd` of the whole frame. -/
lemma normTable_cell (sqrtFn : Value → Value)
    (rows : List (Timestamp × List Value)) (ncols i j : Nat)
    (r : Timestamp × List Value)
    (hi : (normTable sqrtFn rows ncols)[i]? = some r) (hj : j < ncols) :
    ∃ r0, rows[i]? = some r0 ∧ r.1 = r0.1 ∧
      r.2[j]? = some ((r0.2.getD j 0 - colMean rows j) / colStd sqrtFn rows j) := by
  unfold normTable at hi
  rw [List.getElem?_map] at hi
  rcases hrows : rows[i]? with _ | r0
  · rw [hrows] at hi; simp at hi
  · rw [hrows] at hi
    simp only [Option.map_some', Option.some.injEq] at hi
    refine ⟨r0, rfl, ?_, ?_⟩
    · rw [← hi]
    · rw [← hi]
      show ((List.range ncols).map _)[j]? = _
      rw [List.getElem?_map, List.getElem?_range hj]
      rfl

/-! ### Claims C3, C4, C5 — normalization and threshold projection -/

/-- A windowed table on which the claimed and the implemented statistics
differ: the HY-spread column is fully observed, but the VIX column is
absent in the first row, so `dropna()` discards that row and the
HY-spread statistics lose the value observed there. -/
def exC3 : MergedTable :=
  ⟨[1, 2],
   [("HY Spread (bps)", [some 0, some 2]),
    ("VIX Index", [none, some 5]),
    ("Consumer Sentiment Index", [some 1, some 1])]⟩

/-- C3, counterexample.  The mean `make_chart` uses for the HY-spread
column is taken over the rows surviving `dropna()` (here only the second
row, mean 2), not over the non-absent HY-spread values within the table
(mean 1): the claim fails as stated. -/
theorem claim_C3_counterexample :
    colMean (make_chart_rows exC3) 0 ≠
      listMean (presentValues exC3 "HY Spread (bps)") := by
  norm_num [colMean, colVals, listMean, listSum, make_chart_rows, droppedTable,
    subTableRows, rowAt, colValues, List.find?, List.replicate, List.filterMap, List.foldl, selectedNames, exC3, allSome, presentValues,
    List.range_succ]

/-- C3, amended.  The statistics are table-local but computed over the
rows in which every requested column is non-absent: `dropna()` keeps
exactly the all-present rows, and each normalized cell standardizes the
surviving value with `colMean`/`colStd` taken over those rows only. -/
theorem claim_C3_dropna_stats (tbl : MergedTable) (names : List String)
    (sqrtFn : Value → Value) :
    (∀ (t : Timestamp) (vs : List Value),
        (t, vs) ∈ droppedTable tbl names ↔ (t, vs.map some) ∈ subTableRows tbl names)
    ∧ ∀ (i j : Nat) (r : Timestamp × List Value),
        (normTable sqrtFn (droppedTable tbl names) names.length)[i]? = some r →
        j < names.length →
        ∃ r0, (droppedTable tbl names)[i]? = some r0 ∧
          r.2[j]? = some ((r0.2.getD j 0 - colMean (droppedTable tbl names) j) /
            colStd sqrtFn (droppedTable tbl names) j) := by
  constructor
  · intro t vs
    unfold droppedTable
    rw [List.mem_filterMap]
    constructor
    · rintro ⟨r, hr, hmap⟩
      rcases hall : allSome r.2 with _ | vs'
      · rw [hall] at hmap; simp at hmap
      · rw [hall] at hmap
        simp only [Option.map_some', Option.some.injEq] at hmap
        rw [allSome_eq_some_iff] at hall
        have h1 : r.1 = t := congrArg Prod.fst hmap
        have h2 : vs' = vs := congrArg Prod.snd hmap
        have hr' : r = (t, vs.map some) := by
          rw [Prod.ext_iff]
          exact ⟨h1, by rw [hall, h2]⟩
        rw [← hr']
        exact hr
    · intro hmem
      refine ⟨(t, vs.map some), hmem, ?_⟩
      rw [show allSome (vs.map some) = some vs from (allSome_eq_some_iff _ _).mpr rfl]
      rfl
  · intro i j r hi hj
    obtain ⟨r0, h1, _, h3⟩ := normTable_cell sqrtFn _ names.length i j r hi hj
    exact ⟨r0, h1, h3⟩

/-- A fully observed one-row table used to witness the amended C3. -/
def exC3w : MergedTable :=
  ⟨[1],
   [("HY Spread (bps)", [some 3]),
    ("VIX Index", [some 4]),
    ("Consumer Sentiment Index", [some 5])]⟩

/-- Witness for the amended C3 at a concrete table and cell. -/
theorem claim_C3_dropna_stats_witness :
    ∃ r0, (droppedTable exC3w selectedNames)[0]? = some r0 ∧
      (((1 : Int), ([0, 0, 0] : List Value)).2)[0]? =
        some ((r0.2.getD 0 0 - colMean (droppedTable exC3w selectedNames) 0) /
          colStd id (droppedTable exC3w selectedNames) 0) :=
  (claim_C3_dropna_stats exC3w selectedNames id).2 0 0 (1, [0, 0, 0])
    (by norm_num [normTable, colMean, colStd, colVals, listMean, listSum, sampleVar,
      droppedTable, subTableRows, rowAt, colValues, List.find?, List.replicate, List.filterMap, List.foldl, selectedNames, exC3w, allSome,
      List.range_succ])
    (by decide)

/-- C4.  Threshold projection consistency: the projected marker for a raw
threshold `t` is `(t - m) / s` for exactly the `(m, s) = (colMean,
colStd)` pair of that column of the dropped frame, and every normalized
cell of the same column standardizes with the same pair — so normalizing
the raw value `t` itself lands on the marker. -/
theorem claim_C4_threshold_consistency (sqrtFn : Value → Value)
    (tbl : MergedTable) (j : Nat) (t : Value)
    (hj : j < selectedNames.length)
    (hstd : colStd sqrtFn (make_chart_rows tbl) j ≠ 0) :
    make_chart_thresh sqrtFn tbl j t =
      (t - colMean (make_chart_rows tbl) j) / colStd sqrtFn (make_chart_rows tbl) j
    ∧ ∀ (i : Nat) (r : Timestamp × List Value),
        (make_chart_norm sqrtFn tbl)[i]? = some r →
        ∃ r0, (make_chart_rows tbl)[i]? = some r0 ∧
          r.2[j]? = some ((r0.2.getD j 0 - colMean (make_chart_rows tbl) j) /
            colStd sqrtFn (make_chart_rows tbl) j) := by
  constructor
  · rfl
  · intro i r hi
    obtain ⟨r0, h1, _, h3⟩ := normTable_cell sqrtFn _ _ i j r hi hj
    exact ⟨r0, h1, h3⟩

/-- A three-row fully observed table whose HY-spread column has sample
standard deviation 1, witnessing C4. -/
def exC4 : MergedTable :=
  ⟨[1, 2, 3],
   [("HY Spread (bps)", [some 0, some 1, some 2]),
    ("VIX Index", [some 1, some 2, some 3]),
    ("Consumer Sentiment Index", [some 5, some 6, some 7])]⟩

/-- Witness for C4 at a concrete window with nonzero standard deviation. -/
theorem claim_C4_threshold_consistency_witness :
    make_chart_thresh id exC4 0 400 =
      (400 - colMean (make_chart_rows exC4) 0) / colStd id (make_chart_rows exC4) 0
    ∧ ∀ (i : Nat) (r : Timestamp × List Value),
        (make_chart_norm id exC4)[i]? = some r →
        ∃ r0, (make_chart_rows exC4)[i]? = some r0 ∧
          r.2[0]? = some ((r0.2.getD 0 0 - colMean (make_chart_rows exC4) 0) /
            colStd id (make_chart_rows exC4) 0) :=
  claim_C4_threshold_consistency id exC4 0 400 (by decide)
    (by norm_num [colStd, colMean, colVals, listMean, listSum, sampleVar,
      make_chart_rows, droppedTable, subTableRows, rowAt, colValues, List.find?, List.replicate, List.filterMap, List.foldl, selectedNames,
      exC4, allSome, List.range_succ])

/-- A window whose HY-spread column is constant (`5`, `5`): its sample
variance is zero, the degenerate case of C5. -/
def exC5 : MergedTable :=
  ⟨[1, 2],
   [("HY Spread (bps)", [some 5, some 5]),
    ("VIX Index", [some 1, some 2]),
    ("Consumer Sentiment Index", [some 1, some 2])]⟩

/-- C5, counterexample.  On a degenerate (constant) column the code does
not signal any condition: `make_chart` returns plain numbers — the
threshold projection and the column's normalized cells are silent zeros
(the rational embedding of pandas' division by a zero standard deviation,
which in floating point is NaN or infinity). -/
theorem claim_C5_counterexample :
    make_chart_thresh id exC5 0 400 = 0
    ∧ (make_chart_norm id exC5)[0]? =
        some ((1 : Timestamp), ([0, -1, -1] : List Value)) := by
  have hrows : make_chart_rows exC5 = [(1, [5, 1, 1]), (2, [5, 2, 2])] := by
    norm_num [make_chart_rows, droppedTable, subTableRows, rowAt, colValues,
      List.find?, List.replicate, List.filterMap, selectedNames, exC5, allSome,
      List.range_succ]
  constructor
  · norm_num [make_chart_thresh, threshZ, colVals, listMean, listSum, sampleVar,
      hrows, List.foldl]
  · norm_num [make_chart_norm, normTable, colMean, colStd, colVals, listMean,
      listSum, sampleVar, hrows, selectedNames, List.range_succ, List.foldl]

/-- C5, amended.  There is no degenerate-column guard: whenever the
sample variance of a selected column is zero (constant column or fewer
than two values) and the numeric square root maps 0 to 0, the threshold
projection and every normalized cell of that column evaluate to the
silent zero of division by zero — no distinct condition is raised. -/
theorem claim_C5_no_guard (sqrtFn : Value → Value) (tbl : MergedTable)
    (j : Nat) (t : Value) (hj : j < selectedNames.length)
    (hsq : sqrtFn 0 = 0)
    (hvar : sampleVar (colVals (make_chart_rows tbl) j) = 0) :
    make_chart_thresh sqrtFn tbl j t = 0
    ∧ ∀ (i : Nat) (r : Timestamp × List Value),
        (make_chart_norm sqrtFn tbl)[i]? = some r → r.2[j]? = some 0 := by
  have hstd : colStd sqrtFn (make_chart_rows tbl) j = 0 := by
    unfold colStd
    rw [hvar, hsq]
  constructor
  · show (t - _) / sqrtFn (sampleVar _) = 0
    rw [hvar, hsq, div_zero]
  · intro i r hi
    obtain ⟨r0, _, _, h3⟩ := normTable_cell sqrtFn _ _ i j r hi hj
    rw [h3, hstd, div_zero]

/-- Witness for the amended C5 at the concrete degenerate window. -/
theorem claim_C5_no_guard_witness :
    make_chart_thresh id exC5 0 400 = 0
    ∧ ∀ (i : Nat) (r : Timestamp × List Value),
        (make_chart_norm id exC5)[i]? = some r → r.2[0]? = some 0 :=
  claim_C5_no_guard id exC5 0 400 (by decide) rfl
    (by norm_num [sampleVar, colVals, listMean, listSum, make_chart_rows,
      droppedTable, subTableRows, rowAt, colValues, List.find?, List.replicate, List.filterMap, List.foldl, selectedNames, exC5, allSome,
      List.range_succ])

/-! ### Claim C9 — fetch failure handling (`app_v2.load_data`) -/

/-- Result of one indicator fetch: the series, or a `SourceUnavailable`
failure raised by the fetcher. -/
abbrev FetchResult := Except Unit Series

/-- The sequential fetch block inside the `try` of `app_v2.load_data`:
the first raising fetch aborts the whole block with its error. -/
def seqFetches : List (String × FetchResult) → Except Unit (List (String × Series))
  | [] => Except.ok []
  | (_, Except.error e) :: _ => Except.error e
  | (nm, Except.ok s) :: rest => (seqFetches rest).map (fun l => (nm, s) :: l)

/-- The empty frame `pd.DataFrame()` returned by the `except` branch. -/
def emptyTable : MergedTable := ⟨[], []⟩

/-- `load_data` of `app_v2.py`: fetch all indicators, merge, forward-fill
and window inside a `try`; any fetch failure is caught by the blanket
`except`, which returns the empty frame. -/
def loadDataV2 (fetches : List (String × FetchResult)) (r : Int) : MergedTable :=
  match seqFetches fetches with
  | Except.error _ => emptyTable
  | Except.ok inputs => windowTable (mergeTables inputs) r

/-- Stated by the spec, for comparison (the code does not implement it):
proceed with the remaining available columns, treating a failed
indicator's column as entirely absent (an empty series contributes no
timestamps and only absent cells). -/
def specMergeWithFailures (fetches : List (String × FetchResult)) (r : Int) : MergedTable :=
  windowTable (mergeTables (fetches.map (fun nf =>
    (nf.1, match nf.2 with
      | Except.ok s => s
      | Except.error _ => [])))) r

/-- One successful fetch with data alongside one failed fetch. -/
def exFetches : List (String × FetchResult) :=
  [("A", Except.ok [((1 : Int), (2 : ℚ))]), ("B", Except.error ())]

/-- C9, counterexample.  When one fetch fails while another succeeds with
data, `app_v2.load_data` returns the empty table — the whole pipeline is
emptied — whereas the claimed graceful degradation (merge the remaining
columns, failed column entirely absent) yields a nonempty table. -/
theorem claim_C9_counterexample :
    loadDataV2 exFetches 10 = emptyTable
    ∧ specMergeWithFailures exFetches 10 ≠ emptyTable := by
  constructor
  · rfl
  · decide

/-- A member with an error result drives the whole fetch block to the
error branch. -/
lemma seqFetches_error :
    ∀ (fetches : List (String × FetchResult)),
      (∃ nf ∈ fetches, ∀ s : Series, nf.2 ≠ Except.ok s) →
      ∃ e, seqFetches fetches = Except.error e := by
  intro fetches
  induction fetches with
  | nil =>
    rintro ⟨nf, h, _⟩
    simp at h
  | cons hd rest ih =>
    rintro ⟨nf, hmem, hne⟩
    rcases hd with ⟨nm, res⟩
    cases res with
    | error e => exact ⟨e, rfl⟩
    | ok s =>
      rcases List.mem_cons.mp hmem with h1 | h2
      · exfalso
        apply hne s
        rw [h1]
      · obtain ⟨e, he⟩ := ih ⟨nf, h2, hne⟩
        exact ⟨e, by simp [seqFetches, he, Except.map]⟩

/-- With every fetch succeeding, the fetch block returns all series. -/
lemma seqFetches_ok :
    ∀ (inputs : List (String × Series)),
      seqFetches (inputs.map (fun ns => (ns.1, Except.ok ns.2))) = Except.ok inputs := by
  intro inputs
  induction inputs with
  | nil => rfl
  | cons hd rest ih => simp [seqFetches, ih, Except.map]

/-- C9, amended.  `app_v2.load_data` does not degrade gracefully per
column: if any fetch fails the entire load returns the empty table (so
total failure also yields the empty table, the only part of the claim
that survives); only when every fetch succeeds does it return the
windowed merge of all columns.  (`app.py`'s `load_data` has no handler at
all: a fetch failure propagates out of the pipeline.) -/
theorem claim_C9_degrade_to_empty (fetches : List (String × FetchResult))
    (inputs : List (String × Series)) (r : Int) :
    ((∃ nf ∈ fetches, ∀ s : Series, nf.2 ≠ Except.ok s) →
        loadDataV2 fetches r = emptyTable)
    ∧ loadDataV2 (inputs.map (fun ns => (ns.1, Except.ok ns.2))) r =
        windowTable (mergeTables inputs) r := by
  constructor
  · intro hex
    obtain ⟨e, he⟩ := seqFetches_error fetches hex
    simp [loadDataV2, he]
  · simp [loadDataV2, seqFetches_ok]

/-- Witness for the amended C9: the failing pair of fetches empties the
load, and an all-successful singleton load is the windowed merge. -/
theorem claim_C9_degrade_to_empty_witness :
    loadDataV2 exFetches 5 = emptyTable
    ∧ loadDataV2 ([("A", [((1 : Int), (2 : ℚ))])].map (fun ns => (ns.1, Except.ok ns.2))) 5 =
        windowTable (mergeTables [("A", [((1 : Int), (2 : ℚ))])]) 5 := by
  constructor
  · exact (claim_C9_degrade_to_empty exFetches [] 5).1
      ⟨("B", Except.error ()), by simp [exFetches], fun s h => by simp at h⟩
  · exact (claim_C9_degrade_to_empty [] [("A", [(1, 2)])] 5).2

end CreditDash
